/-
Verification of the pyramidal training-plan generator
(src/utils/generator.ts, function `generatePlan`).

Shallow embedding conventions:
- Calendar dates are modelled as integer day offsets from `today`
  (the ambient current date read by the generator); every emitted row
  falls on or after `today`, so row dates are `Nat`.
- The optional `raceDate` input string is modelled by `Option RaceDate`:
  `some (RaceDate.valid d)` is a parseable date `d` calendar days from
  today (what `new Date(s)` followed by `differenceInCalendarDays`
  produces), `some RaceDate.invalid` is a present but unparseable string
  (JavaScript `Invalid Date`, whose day difference is NaN), `none` is an
  absent field.
- The JavaScript number `totalWeeks`, which can be NaN, is modelled by
  `Option Int` (`none` = NaN).  A `for (w = 0; w < totalWeeks; ...)`
  loop with a NaN bound executes zero times, which `loopBound` captures.
- Row `session` strings are built exactly as the template literals in
  the source build them.
- `rows.sort((a, b) => parse(a.date) - parse(b.date))` is an ascending
  stable sort on the calendar date that the date field denotes (the
  display format `EEE, MMM d yyyy` round-trips the calendar date);
  it is modelled by a stable insertion sort on the date offset.
-/
import Mathlib

namespace TrailRunPlanner

/-- `planType` input: one of race, maintenance, maintenance_plus. -/
inductive PlanType
  | race
  | maintenance
  | maintenance_plus
deriving DecidableEq

/-- `courseProfile` input: one of flat, rolling, hilly, ultra. -/
inductive CourseProfile
  | flat
  | rolling
  | hilly
  | ultra
deriving DecidableEq

/-- `heatBlock` input: one of none, monoblock, biphasic. -/
inductive HeatBlock
  | none
  | monoblock
  | biphasic
deriving DecidableEq

/-- `raceDistance` input: one of 10k, half, marathon, 50k, custom. -/
inductive RaceDistance
  | tenK
  | half
  | marathon
  | fiftyK
  | custom
deriving DecidableEq

/-- `timeVsDistance` input: one of time, distance. -/
inductive TimeVsDistance
  | time
  | distance
deriving DecidableEq

/-- A present `raceDate` string: either a parseable calendar date,
identified by its calendar-day difference from today, or an
unparseable string (JavaScript `Invalid Date`). -/
inductive RaceDate
  | valid (daysFromToday : Int)
  | invalid
deriving DecidableEq

/-- The `PlanInputs` record consumed by `generatePlan`
(fields not read by the generator are kept for the data model). -/
structure PlanInputs where
  planType : PlanType
  maxHR : Nat
  courseProfile : CourseProfile
  raceDate : Option RaceDate
  raceDistance : RaceDistance
  currentHours : Option Nat
  maxHours : Option Nat
  heatBlock : HeatBlock
  strength : Bool
  timeVsDistance : TimeVsDistance
deriving DecidableEq

/-- One row of the generated plan: `date` is the calendar date as a
day offset from today, `session` the human-readable description. -/
structure PlanRow where
  date : Nat
  session : String
deriving DecidableEq

/-- `Math.ceil(a / 7)` on an integer numerator
(`/` is Euclidean division, which floors for a positive divisor). -/
def ceilDiv7 (a : Int) : Int := (a + 6) / 7

/-- The `totalWeeks` number computed by `generatePlan`:
`none` models NaN (race plan with a present but unparseable
`raceDate`).  For a race plan with a parseable or absent date,
`max(4, ceil(daysUntil / 7))` with a missing date treated as today
(`daysUntil = 0`); otherwise the fixed 12. -/
def weeksCount (inputs : PlanInputs) : Option Int :=
  match inputs.planType with
  | PlanType.race =>
    match inputs.raceDate with
    | some (RaceDate.valid d) => some (max 4 (ceilDiv7 d))
    | some RaceDate.invalid => Option.none
    | Option.none => some (max 4 (ceilDiv7 0))
  | _ => some 12

/-- Number of iterations of the week loop `for (w = 0; w < totalWeeks; w++)`:
zero when `totalWeeks` is NaN (`w < NaN` is false), else `totalWeeks`. -/
def loopBound (inputs : PlanInputs) : Nat :=
  match weeksCount inputs with
  | Option.none => 0
  | some t => t.toNat

/-- JavaScript `x || d` on an optional numeric field: both an absent
value and 0 are falsy and replaced by the default. -/
def orDefault (x : Option Nat) (d : Nat) : Nat :=
  match x with
  | some v => if v = 0 then d else v
  | Option.none => d

/-- `curHrs`: the current weekly hours of the athlete, defaulted to 5. -/
def curHrs (inputs : PlanInputs) : Nat := orDefault inputs.currentHours 5

/-- `maxHrs`: the maximum weekly hours of the athlete, defaulted to
`max(curHrs + 2, 10)` for race plans and `max(curHrs + 2, 8)` otherwise. -/
def maxHrs (inputs : PlanInputs) : Nat :=
  orDefault inputs.maxHours
    (if inputs.planType = PlanType.race then max (curHrs inputs + 2) 10
     else max (curHrs inputs + 2) 8)

/-- Linear interpolation helper `lerp`. -/
def lerp (start finish t : ℚ) : ℚ := start + (finish - start) * t

/-- The ramp factor `t = totalWeeks > 1 ? w / (totalWeeks - 1) : 1`. -/
def rampT (totalWeeks w : Nat) : ℚ :=
  if 1 < totalWeeks then (w : ℚ) / ((totalWeeks : ℚ) - 1) else 1

/-- `targetHrs`: weekly target hours (computed but not consumed by
session placement in the source). -/
def targetHrs (inputs : PlanInputs) (totalWeeks w : Nat) : ℚ :=
  lerp (curHrs inputs) (maxHrs inputs) (rampT totalWeeks w)

/-- `longSeed`: base long-run minutes, 90 for race plans else 60. -/
def longSeed (pt : PlanType) : Nat :=
  if pt = PlanType.race then 90 else 60

/-- The long-run duration in minutes for week `w`: `longSeed + 10 * w`. -/
def longRunMin (inputs : PlanInputs) (w : Nat) : Nat :=
  longSeed inputs.planType + 10 * w

/-- The long-run session string for week `w`. -/
def longRunSession (inputs : PlanInputs) (w : Nat) : String :=
  "Long run – " ++ toString (longRunMin inputs w) ++ " min easy"

/-- The Wednesday quality session: fixed threshold on a flat course,
else hill tempo on even weeks and threshold on odd weeks. -/
def midweekSession (cp : CourseProfile) (w : Nat) : String :=
  if cp = CourseProfile.flat then "Threshold 20 min continuous"
  else if w % 2 = 0 then "Uphill-Tempo 6×5 min"
  else "Threshold 20 min continuous"

/-- The heat-acclimation session string. -/
def heatSession : String := "HWI 19 min @ 40°C"

/-- The fixed Friday VO2 interval session string. -/
def vo2Session : String := "VO₂max 4×4 min"

/-- The extra Saturday VO2 session string added by maintenance-plus. -/
def extraVO2Session : String := "Additional VO₂ 4×4 min"

/-- The rows pushed by one iteration of the week loop, in push order.
`weekStart = today + 7 * w` days, so a day offset `c` within the week
becomes date `7 * w + c`. -/
def weekRows (inputs : PlanInputs) (totalWeeks w : Nat) : List PlanRow :=
  [{ date := 7 * w + 6, session := longRunSession inputs w },
   { date := 7 * w + 2, session := midweekSession inputs.courseProfile w }]
  ++ (if w % 4 ≠ 3 then [{ date := 7 * w + 4, session := vo2Session }] else [])
  ++ (if inputs.planType = PlanType.race ∧ inputs.heatBlock ≠ HeatBlock.none then
        (if inputs.heatBlock = HeatBlock.monoblock ∧ totalWeeks - 2 ≤ w then
           [{ date := 7 * w + 1, session := heatSession }] else [])
        ++ (if inputs.heatBlock = HeatBlock.biphasic ∧ (w < 2 ∨ totalWeeks - 2 ≤ w) then
             [{ date := 7 * w + 1, session := heatSession }] else [])
      else [])
  ++ (if inputs.planType = PlanType.maintenance_plus ∧ w % 2 = 1 ∧ w % 4 ≠ 3 then
        [{ date := 7 * w + 5, session := extraVO2Session }] else [])

/-- All rows accumulated by the week loop, in emission order. -/
def assembleRows (inputs : PlanInputs) : List PlanRow :=
  ((List.range (loopBound inputs)).map
    (fun w => weekRows inputs (loopBound inputs) w)).flatten

/-- The sort comparator: ascending by the calendar date a row denotes. -/
def rowLE (a b : PlanRow) : Bool := a.date ≤ b.date

/-- Stable insertion of a row into a date-sorted list. -/
def insertRow (r : PlanRow) : List PlanRow → List PlanRow
  | [] => [r]
  | x :: xs => if rowLE r x then r :: x :: xs else x :: insertRow r xs

/-- Stable ascending sort by date, modelling
`rows.sort((a, b) => parse(a.date) - parse(b.date))`. -/
def sortRows : List PlanRow → List PlanRow
  | [] => []
  | x :: xs => insertRow x (sortRows xs)

/-- `generatePlan`: the full generator. -/
def generatePlan (inputs : PlanInputs) : List PlanRow :=
  sortRows (assembleRows inputs)

/-- Bool predicate: row lies on calendar day `t` and carries session `s`. -/
def atDay (t : Nat) (s : String) (r : PlanRow) : Bool :=
  r.date == t && r.session == s

/-- Bool predicate: row falls inside week `w` (dates in `[7w, 7w+7)`). -/
def inWeek (w : Nat) (r : PlanRow) : Bool :=
  decide (7 * w ≤ r.date) && decide (r.date < 7 * w + 7)

/-- Bool predicate: the session of the row is one of the VO2 interval sessions. -/
def isVO2Row (r : PlanRow) : Bool :=
  r.session == vo2Session || r.session == extraVO2Session

/-- Concrete input: a 12-week maintenance plan on a flat course. -/
def exMaint : PlanInputs :=
  { planType := PlanType.maintenance, maxHR := 185,
    courseProfile := CourseProfile.flat, raceDate := Option.none,
    raceDistance := RaceDistance.half, currentHours := some 5,
    maxHours := Option.none, heatBlock := HeatBlock.none, strength := false,
    timeVsDistance := TimeVsDistance.time }

/-- Concrete input: a 12-week maintenance-plus plan on a rolling course. -/
def exMPlus : PlanInputs :=
  { planType := PlanType.maintenance_plus, maxHR := 190,
    courseProfile := CourseProfile.rolling, raceDate := Option.none,
    raceDistance := RaceDistance.marathon, currentHours := some 6,
    maxHours := some 9, heatBlock := HeatBlock.none, strength := true,
    timeVsDistance := TimeVsDistance.distance }

/-- Concrete input of the spec scenario: race plan, race in 28 days,
50k, flat course, no heat block, maxHR 180. -/
def exRace28 : PlanInputs :=
  { planType := PlanType.race, maxHR := 180,
    courseProfile := CourseProfile.flat,
    raceDate := some (RaceDate.valid 28),
    raceDistance := RaceDistance.fiftyK, currentHours := Option.none,
    maxHours := Option.none, heatBlock := HeatBlock.none, strength := false,
    timeVsDistance := TimeVsDistance.time }

/-- Concrete input: race plan, race in 70 days, monoblock heat block. -/
def exRaceMono : PlanInputs :=
  { planType := PlanType.race, maxHR := 178,
    courseProfile := CourseProfile.hilly,
    raceDate := some (RaceDate.valid 70),
    raceDistance := RaceDistance.fiftyK, currentHours := some 7,
    maxHours := some 12, heatBlock := HeatBlock.monoblock, strength := false,
    timeVsDistance := TimeVsDistance.time }

/-- Concrete input: race plan, race in 70 days, biphasic heat block. -/
def exRaceBi : PlanInputs :=
  { planType := PlanType.race, maxHR := 178,
    courseProfile := CourseProfile.ultra,
    raceDate := some (RaceDate.valid 70),
    raceDistance := RaceDistance.custom, currentHours := some 7,
    maxHours := some 12, heatBlock := HeatBlock.biphasic, strength := true,
    timeVsDistance := TimeVsDistance.time }

/-- Concrete input: race plan whose raceDate is present but unparseable. -/
def exRaceBadDate : PlanInputs :=
  { planType := PlanType.race, maxHR := 180,
    courseProfile := CourseProfile.flat,
    raceDate := some RaceDate.invalid,
    raceDistance := RaceDistance.tenK, currentHours := Option.none,
    maxHours := Option.none, heatBlock := HeatBlock.none, strength := false,
    timeVsDistance := TimeVsDistance.time }

/-- Inserting a row permutes consing it in front. -/
theorem insertRow_perm (r : PlanRow) (l : List PlanRow) :
    List.Perm (insertRow r l) (r :: l) := by
  induction l with
  | nil => simp [insertRow]
  | cons x xs ih =>
    by_cases h : rowLE r x
    · simp [insertRow, h]
    · simp only [insertRow, if_neg h]
      exact (ih.cons x).trans (List.Perm.swap r x xs)

/-- The sort returns a permutation of its input. -/
theorem sortRows_perm (l : List PlanRow) : List.Perm (sortRows l) l := by
  induction l with
  | nil => simp [sortRows]
  | cons x xs ih => exact (insertRow_perm x (sortRows xs)).trans (ih.cons x)

/-- The date comparator is total. -/
theorem rowLE_total (a b : PlanRow) (h : ¬ rowLE a b = true) : rowLE b a = true := by
  simp [rowLE] at *
  omega

/-- Insertion preserves the sortedness invariant. -/
theorem insertRow_pairwise (r : PlanRow) (l : List PlanRow)
    (h : List.Pairwise (fun a b => a.date ≤ b.date) l) :
    List.Pairwise (fun a b => a.date ≤ b.date) (insertRow r l) := by
  induction l with
  | nil => simp [insertRow]
  | cons x xs ih =>
    rcases List.pairwise_cons.mp h with ⟨hx, hxs⟩
    by_cases hle : rowLE r x
    · simp only [insertRow, if_pos hle]
      refine List.pairwise_cons.mpr ⟨?_, h⟩
      intro b hb
      have hrx : r.date ≤ x.date := by simpa [rowLE] using hle
      rcases List.mem_cons.mp hb with rfl | hb2
      · exact hrx
      · exact le_trans hrx (hx b hb2)
    · simp only [insertRow, if_neg hle]
      refine List.pairwise_cons.mpr ⟨?_, ih hxs⟩
      intro b hb
      have hxr : x.date ≤ r.date := by simpa [rowLE] using rowLE_total r x hle
      rcases List.mem_cons.mp ((insertRow_perm r xs).mem_iff.mp hb) with rfl | hb3
      · exact hxr
      · exact hx b hb3

/-- The sorted list is pairwise nondecreasing in date. -/
theorem sortRows_pairwise (l : List PlanRow) :
    List.Pairwise (fun a b => a.date ≤ b.date) (sortRows l) := by
  induction l with
  | nil => simp [sortRows]
  | cons x xs ih => exact insertRow_pairwise x (sortRows xs) ih

/-- A flattened range of week blocks that all count zero counts zero. -/
theorem countP_flatten_range_zero (p : PlanRow → Bool) (f : Nat → List PlanRow) (N : Nat)
    (h : ∀ i, i < N → List.countP p (f i) = 0) :
    List.countP p ((List.range N).map f).flatten = 0 := by
  induction N with
  | zero => simp
  | succ n ih =>
    rw [List.range_succ, List.map_append, List.flatten_append, List.countP_append]
    have h1 := ih (fun i hi => h i (Nat.lt_succ_of_lt hi))
    have h2 := h n (Nat.lt_succ_self n)
    simp [h1, h2]

/-- When only week `w` can contribute, the whole count equals the count
of week `w`. -/
theorem countP_flatten_range_single (p : PlanRow → Bool) (f : Nat → List PlanRow)
    (N w : Nat) (hw : w < N)
    (h : ∀ i, i < N → i ≠ w → List.countP p (f i) = 0) :
    List.countP p ((List.range N).map f).flatten = List.countP p (f w) := by
  induction N with
  | zero => omega
  | succ n ih =>
    rw [List.range_succ, List.map_append, List.flatten_append, List.countP_append]
    by_cases hwn : w = n
    · subst hwn
      have h1 : List.countP p ((List.range w).map f).flatten = 0 :=
        countP_flatten_range_zero p f w
          (fun i hi => h i (Nat.lt_succ_of_lt hi) (Nat.ne_of_lt hi))
      simp [h1]
    · have hw2 : w < n := by omega
      have h1 := ih hw2 (fun i hi hne => h i (Nat.lt_succ_of_lt hi) hne)
      have h2 : List.countP p (f n) = 0 := h n (Nat.lt_succ_self n) (fun e => hwn e.symm)
      simp [h1, h2]

/-- Every row of week block `w` is dated inside that week. -/
theorem weekRows_dates (inputs : PlanInputs) (N w : Nat) :
    ∀ r ∈ weekRows inputs N w, 7 * w + 1 ≤ r.date ∧ r.date ≤ 7 * w + 6 := by
  intro r h
  obtain ⟨d, s⟩ := r
  simp only [weekRows, List.mem_append, List.mem_ite_nil_right, List.mem_cons,
    List.not_mem_nil, or_false, PlanRow.mk.injEq] at h
  show 7 * w + 1 ≤ d ∧ d ≤ 7 * w + 6
  rcases h with (((⟨rfl, -⟩ | ⟨rfl, -⟩) | ⟨-, rfl, -⟩) |
    ⟨-, ⟨-, rfl, -⟩ | ⟨-, rfl, -⟩⟩) | ⟨-, rfl, -⟩ <;> omega

/-- A predicate pinned to week `w` counts zero on any other week block. -/
theorem countP_weekRows_zero_of_ne (p : PlanRow → Bool) (inputs : PlanInputs)
    (N w i : Nat)
    (hp : ∀ r, p r = true → 7 * w ≤ r.date ∧ r.date < 7 * w + 7)
    (hne : i ≠ w) :
    List.countP p (weekRows inputs N i) = 0 := by
  rw [List.countP_eq_zero]
  intro r hr hpr
  have h1 := weekRows_dates inputs N i r hr
  have h2 := hp r hpr
  omega

/-- A predicate pinned to week `w` counts the same on the whole plan as
on the week-`w` block. -/
theorem countP_generatePlan_eq (p : PlanRow → Bool) (inputs : PlanInputs) (w : Nat)
    (hw : w < loopBound inputs)
    (hp : ∀ r, p r = true → 7 * w ≤ r.date ∧ r.date < 7 * w + 7) :
    List.countP p (generatePlan inputs) =
      List.countP p (weekRows inputs (loopBound inputs) w) := by
  rw [generatePlan, List.Perm.countP_eq p (sortRows_perm _)]
  exact countP_flatten_range_single p _ (loopBound inputs) w hw
    (fun i hi hne => countP_weekRows_zero_of_ne p inputs (loopBound inputs) w i hp hne)

/-- The long-run session string never equals the Friday VO2 session. -/
theorem longRunSession_ne_vo2 (inputs : PlanInputs) (w : Nat) :
    longRunSession inputs w ≠ vo2Session := by
  intro h
  have h2 := congrArg String.data h
  rw [longRunSession, vo2Session, String.data_append, String.data_append] at h2
  have h3 : "Long run – ".data = 'L' :: "ong run – ".data := rfl
  rw [h3] at h2
  simp [List.cons_append] at h2

/-- The long-run session string never equals the extra VO2 session. -/
theorem longRunSession_ne_extra (inputs : PlanInputs) (w : Nat) :
    longRunSession inputs w ≠ extraVO2Session := by
  intro h
  have h2 := congrArg String.data h
  rw [longRunSession, extraVO2Session, String.data_append, String.data_append] at h2
  have h3 : "Long run – ".data = 'L' :: "ong run – ".data := rfl
  rw [h3] at h2
  simp [List.cons_append] at h2

/-- The long-run session string never equals the heat session. -/
theorem longRunSession_ne_heat (inputs : PlanInputs) (w : Nat) :
    longRunSession inputs w ≠ heatSession := by
  intro h
  have h2 := congrArg String.data h
  rw [longRunSession, heatSession, String.data_append, String.data_append] at h2
  have h3 : "Long run – ".data = 'L' :: "ong run – ".data := rfl
  rw [h3] at h2
  simp [List.cons_append] at h2

/-- The midweek session never equals the Friday VO2 session. -/
theorem midweekSession_ne_vo2 (cp : CourseProfile) (w : Nat) :
    midweekSession cp w ≠ vo2Session := by
  unfold midweekSession vo2Session
  split_ifs <;> decide

/-- The midweek session never equals the extra VO2 session. -/
theorem midweekSession_ne_extra (cp : CourseProfile) (w : Nat) :
    midweekSession cp w ≠ extraVO2Session := by
  unfold midweekSession extraVO2Session
  split_ifs <;> decide

/-- The midweek session never equals the heat session. -/
theorem midweekSession_ne_heat (cp : CourseProfile) (w : Nat) :
    midweekSession cp w ≠ heatSession := by
  unfold midweekSession heatSession
  split_ifs <;> decide

theorem heatSession_ne_vo2 : heatSession ≠ vo2Session := by decide

theorem heatSession_ne_extra : heatSession ≠ extraVO2Session := by decide

theorem vo2Session_ne_extra : vo2Session ≠ extraVO2Session := by decide

theorem vo2Session_ne_heat : vo2Session ≠ heatSession := by decide

theorem extraVO2Session_ne_heat : extraVO2Session ≠ heatSession := by decide

theorem countP_weekRows_vo2 (inputs : PlanInputs) (N w : Nat) :
    List.countP (atDay (7 * w + 4) vo2Session) (weekRows inputs N w) =
      if w % 4 = 3 then 0 else 1 := by
  simp only [weekRows, List.countP_append]
  split_ifs <;>
    simp [List.countP_cons, atDay, vo2Session, longRunSession, midweekSession,
      heatSession, extraVO2Session] <;> omega

theorem countP_weekRows_deload (inputs : PlanInputs) (N w : Nat) (h : w % 4 = 3) :
    List.countP (fun r => inWeek w r && isVO2Row r) (weekRows inputs N w) = 0 := by
  simp only [weekRows, List.countP_append]
  split_ifs <;>
    simp [List.countP_cons, inWeek, isVO2Row, longRunSession_ne_vo2,
      longRunSession_ne_extra, midweekSession_ne_vo2, midweekSession_ne_extra,
      heatSession_ne_vo2, heatSession_ne_extra, h] <;> omega

theorem countP_weekRows_sunday (inputs : PlanInputs) (N w : Nat) :
    List.countP (fun r => r.date == 7 * w + 6) (weekRows inputs N w) = 1 := by
  simp only [weekRows, List.countP_append]
  split_ifs <;> simp [List.countP_cons]

theorem countP_weekRows_long (inputs : PlanInputs) (N w : Nat) :
    List.countP (atDay (7 * w + 6) (longRunSession inputs w)) (weekRows inputs N w) = 1 := by
  simp only [weekRows, List.countP_append]
  split_ifs <;> simp [List.countP_cons, atDay]

theorem countP_weekRows_wednesday (inputs : PlanInputs) (N w : Nat) :
    List.countP (fun r => r.date == 7 * w + 2) (weekRows inputs N w) = 1 := by
  simp only [weekRows, List.countP_append]
  split_ifs <;> simp [List.countP_cons]

theorem countP_weekRows_wed (inputs : PlanInputs) (N w : Nat) :
    List.countP (atDay (7 * w + 2) (midweekSession inputs.courseProfile w))
      (weekRows inputs N w) = 1 := by
  simp only [weekRows, List.countP_append]
  split_ifs <;> simp [List.countP_cons, atDay]

theorem countP_weekRows_heat (inputs : PlanInputs) (N w : Nat) :
    List.countP (atDay (7 * w + 1) heatSession) (weekRows inputs N w) =
      if inputs.planType = PlanType.race ∧ inputs.heatBlock = HeatBlock.monoblock ∧
          N - 2 ≤ w then 1
      else if inputs.planType = PlanType.race ∧ inputs.heatBlock = HeatBlock.biphasic ∧
          (w < 2 ∨ N - 2 ≤ w) then 1
      else 0 := by
  simp only [weekRows, List.countP_append]
  split_ifs <;> simp_all [List.countP_cons, atDay] <;> omega

theorem countP_weekRows_extra (inputs : PlanInputs) (N w : Nat) :
    List.countP (atDay (7 * w + 5) extraVO2Session) (weekRows inputs N w) =
      if inputs.planType = PlanType.maintenance_plus ∧ w % 2 = 1 ∧ w % 4 ≠ 3 then 1
      else 0 := by
  simp only [weekRows, List.countP_append]
  split_ifs <;> simp_all [List.countP_cons, atDay]

theorem countP_weekRows_heat_off (inputs : PlanInputs) (N w : Nat)
    (h : inputs.heatBlock = HeatBlock.none ∨ inputs.planType ≠ PlanType.race) :
    List.countP (fun r => r.session == heatSession) (weekRows inputs N w) = 0 := by
  simp only [weekRows, List.countP_append]
  split_ifs <;>
    simp_all [List.countP_cons, longRunSession_ne_heat, midweekSession_ne_heat,
      vo2Session_ne_heat, extraVO2Session_ne_heat]

/-- In-week heat-row count: all heat-session rows of week `w`, on any day
of the week, are counted; the count matches the Tuesday-slot count, so heat
rows appear on Tuesday only. -/
theorem countP_weekRows_heat_inweek (inputs : PlanInputs) (N w : Nat) :
    List.countP (fun r => inWeek w r && r.session == heatSession) (weekRows inputs N w) =
      if inputs.planType = PlanType.race ∧ inputs.heatBlock = HeatBlock.monoblock ∧
          N - 2 ≤ w then 1
      else if inputs.planType = PlanType.race ∧ inputs.heatBlock = HeatBlock.biphasic ∧
          (w < 2 ∨ N - 2 ≤ w) then 1
      else 0 := by
  simp only [weekRows, List.countP_append]
  split_ifs <;>
    simp_all [List.countP_cons, inWeek, longRunSession_ne_heat, midweekSession_ne_heat,
      vo2Session_ne_heat, extraVO2Session_ne_heat] <;> omega

theorem countP_weekRows_extra_off (inputs : PlanInputs) (N w : Nat)
    (h : inputs.planType ≠ PlanType.maintenance_plus) :
    List.countP (fun r => r.session == extraVO2Session) (weekRows inputs N w) = 0 := by
  simp only [weekRows, List.countP_append]
  split_ifs <;>
    simp_all [List.countP_cons, longRunSession_ne_extra, midweekSession_ne_extra,
      heatSession_ne_extra, vo2Session_ne_extra]

theorem countP_weekRows_two (inputs : PlanInputs) (N w : Nat) :
    2 ≤ List.countP (inWeek w) (weekRows inputs N w) := by
  simp only [weekRows, List.countP_append]
  split_ifs <;> simp [List.countP_cons, inWeek]

/-- A row matched by `atDay t s` is dated `t`. -/
theorem atDay_pin (t : Nat) (s : String) (r : PlanRow) (h : atDay t s r = true) :
    r.date = t := by
  simp [atDay] at h
  exact h.1

/-- A row matched by `inWeek w` is dated inside week `w`. -/
theorem inWeek_pin (w : Nat) (r : PlanRow) (h : inWeek w r = true) :
    7 * w ≤ r.date ∧ r.date < 7 * w + 7 := by
  simp [inWeek] at h
  exact h

/-- Claim C1: for maintenance and maintenance-plus plans the computed plan
length is exactly 12 weeks regardless of raceDate; for a race plan with a
parseable raceDate `d` calendar days away the length is
`max 4 (ceil (d / 7))` (the third conjunct checks that `ceilDiv7` is the
true ceiling of division by 7); a missing raceDate is treated as today and
a past or missing raceDate is clamped to 4 weeks without error; `d = 28`
gives 4 weeks and `d = 70` gives 10. -/
theorem totalWeeks_rule (inputs : PlanInputs) :
    ((inputs.planType = PlanType.maintenance ∨
        inputs.planType = PlanType.maintenance_plus) →
      weeksCount inputs = some 12) ∧
    (∀ d : Int, inputs.planType = PlanType.race →
      inputs.raceDate = some (RaceDate.valid d) →
      weeksCount inputs = some (max 4 (ceilDiv7 d))) ∧
    (∀ d : Int, d ≤ 7 * ceilDiv7 d ∧ 7 * ceilDiv7 d < d + 7) ∧
    (inputs.planType = PlanType.race → inputs.raceDate = Option.none →
      weeksCount inputs = some 4) ∧
    (∀ d : Int, d ≤ 0 → inputs.planType = PlanType.race →
      inputs.raceDate = some (RaceDate.valid d) →
      weeksCount inputs = some 4) ∧
    (inputs.planType = PlanType.race →
      inputs.raceDate = some (RaceDate.valid 28) → weeksCount inputs = some 4) ∧
    (inputs.planType = PlanType.race →
      inputs.raceDate = some (RaceDate.valid 70) → weeksCount inputs = some 10) := by
  refine ⟨?_, ?_, ?_, ?_, ?_, ?_, ?_⟩
  · intro h
    rcases h with h | h <;> simp [weeksCount, h]
  · intro d h1 h2
    simp [weeksCount, h1, h2]
  · intro d
    unfold ceilDiv7
    omega
  · intro h1 h2
    simp [weeksCount, h1, h2]
    decide
  · intro d hd h1 h2
    have h3 : ceilDiv7 d ≤ 4 := by unfold ceilDiv7; omega
    simp [weeksCount, h1, h2, max_eq_left h3]
  · intro h1 h2
    simp [weeksCount, h1, h2]
    decide
  · intro h1 h2
    simp [weeksCount, h1, h2]
    decide

/-- Witness for claim C1 at a concrete input. -/
theorem totalWeeks_rule_witness :
    weeksCount exMaint = some 12 ∧ weeksCount exRace28 = some 4 ∧
      weeksCount exRaceMono = some 10 :=
  ⟨(totalWeeks_rule exMaint).1 (Or.inl rfl),
   (totalWeeks_rule exRace28).2.2.2.2.2.1 rfl rfl,
   (totalWeeks_rule exRaceMono).2.2.2.2.2.2 rfl rfl⟩

/-- Claim C2, code behavior at the failing input: with planType race and a
present but unparseable raceDate the generator computes a NaN week count
(modelled `Option.none`) and synchronously returns the empty row list; no
InvalidDate error is surfaced to the caller, contradicting the claim. -/
theorem invalidDate_code_behavior :
    weeksCount exRaceBadDate = Option.none ∧ generatePlan exRaceBadDate = [] :=
  ⟨rfl, rfl⟩

/-- Claim C3: for every week index `w` of the plan, a deload week
(`w % 4 = 3`) contains no VO2-interval row at all, and every other week
contains exactly one Friday row (date `7*w + 4`) carrying the fixed VO2max
interval session. -/
theorem vo2_row_rule (inputs : PlanInputs) (w : Nat) (hw : w < loopBound inputs) :
    (w % 4 = 3 →
      List.countP (fun r => inWeek w r && isVO2Row r) (generatePlan inputs) = 0) ∧
    (w % 4 ≠ 3 →
      List.countP (atDay (7 * w + 4) vo2Session) (generatePlan inputs) = 1) := by
  constructor
  · intro h
    rw [countP_generatePlan_eq _ inputs w hw
      (fun r hr => inWeek_pin w r (Bool.and_eq_true_iff.mp hr).1)]
    exact countP_weekRows_deload inputs (loopBound inputs) w h
  · intro h
    rw [countP_generatePlan_eq _ inputs w hw
      (fun r hr => by have := atDay_pin _ _ r hr; omega)]
    rw [countP_weekRows_vo2, if_neg h]

/-- Witness for claim C3 at a concrete input. -/
theorem vo2_row_rule_witness :
    List.countP (fun r => inWeek 3 r && isVO2Row r) (generatePlan exMaint) = 0 ∧
    List.countP (atDay (7 * 0 + 4) vo2Session) (generatePlan exMaint) = 1 :=
  ⟨(vo2_row_rule exMaint 3 (by decide)).1 (by decide),
   (vo2_row_rule exMaint 0 (by decide)).2 (by decide)⟩

/-- Claim C4: heat-acclimation rows are placed on Tuesday (date `7*w + 1`)
and only as follows: for a race plan with a monoblock heat block one heat
row in each of exactly the final two weeks, with a biphasic heat block one
in each of exactly the first two and final two weeks; the second conjunct
counts heat-session rows on every day of week `w` and matches the Tuesday
count, so no heat row sits on any other day of any week; and with
heatBlock none or a non-race plan no heat-acclimation row appears
anywhere in the plan. -/
theorem heat_row_rule (inputs : PlanInputs) (w : Nat) (hw : w < loopBound inputs) :
    (List.countP (atDay (7 * w + 1) heatSession) (generatePlan inputs) =
      if inputs.planType = PlanType.race ∧ inputs.heatBlock = HeatBlock.monoblock ∧
          loopBound inputs - 2 ≤ w then 1
      else if inputs.planType = PlanType.race ∧ inputs.heatBlock = HeatBlock.biphasic ∧
          (w < 2 ∨ loopBound inputs - 2 ≤ w) then 1
      else 0) ∧
    (List.countP (fun r => inWeek w r && r.session == heatSession) (generatePlan inputs) =
      if inputs.planType = PlanType.race ∧ inputs.heatBlock = HeatBlock.monoblock ∧
          loopBound inputs - 2 ≤ w then 1
      else if inputs.planType = PlanType.race ∧ inputs.heatBlock = HeatBlock.biphasic ∧
          (w < 2 ∨ loopBound inputs - 2 ≤ w) then 1
      else 0) ∧
    (inputs.heatBlock = HeatBlock.none ∨ inputs.planType ≠ PlanType.race →
      List.countP (fun r => r.session == heatSession) (generatePlan inputs) = 0) := by
  refine ⟨?_, ?_, ?_⟩
  · rw [countP_generatePlan_eq _ inputs w hw
      (fun r hr => by have := atDay_pin _ _ r hr; omega)]
    exact countP_weekRows_heat inputs (loopBound inputs) w
  · rw [countP_generatePlan_eq _ inputs w hw
      (fun r hr => inWeek_pin w r (Bool.and_eq_true_iff.mp hr).1)]
    exact countP_weekRows_heat_inweek inputs (loopBound inputs) w
  · intro h
    rw [generatePlan, List.Perm.countP_eq _ (sortRows_perm _)]
    exact countP_flatten_range_zero _ _ _
      (fun i hi => countP_weekRows_heat_off inputs (loopBound inputs) i h)

/-- Witness for claim C4 at a concrete input. -/
theorem heat_row_rule_witness :
    List.countP (atDay (7 * 9 + 1) heatSession) (generatePlan exRaceMono) = 1 ∧
    List.countP (fun r => inWeek 9 r && r.session == heatSession)
      (generatePlan exRaceMono) = 1 ∧
    List.countP (fun r => inWeek 5 r && r.session == heatSession)
      (generatePlan exRaceMono) = 0 ∧
    List.countP (atDay (7 * 0 + 1) heatSession) (generatePlan exRaceBi) = 1 ∧
    List.countP (fun r => r.session == heatSession) (generatePlan exMaint) = 0 := by
  refine ⟨?_, ?_, ?_, ?_, ?_⟩
  · have h := (heat_row_rule exRaceMono 9 (by decide)).1
    rwa [if_pos (by decide)] at h
  · have h := (heat_row_rule exRaceMono 9 (by decide)).2.1
    rwa [if_pos (by decide)] at h
  · have h := (heat_row_rule exRaceMono 5 (by decide)).2.1
    rw [if_neg (by decide), if_neg (by decide)] at h
    exact h
  · have h := (heat_row_rule exRaceBi 0 (by decide)).1
    rw [if_neg (by decide), if_pos (by decide)] at h
    exact h
  · exact (heat_row_rule exMaint 0 (by decide)).2.2 (by decide)

/-- Claim C5: an extra Saturday row (date `7*w + 5`) with the additional
VO2 session is emitted for week `w` of the plan exactly when the plan type
is maintenance_plus and `w` is odd and not a deload week; for any other
plan type this row appears nowhere in the plan. -/
theorem extra_row_rule (inputs : PlanInputs) (w : Nat) (hw : w < loopBound inputs) :
    (List.countP (atDay (7 * w + 5) extraVO2Session) (generatePlan inputs) =
      if inputs.planType = PlanType.maintenance_plus ∧ w % 2 = 1 ∧ w % 4 ≠ 3 then 1
      else 0) ∧
    (inputs.planType ≠ PlanType.maintenance_plus →
      List.countP (fun r => r.session == extraVO2Session) (generatePlan inputs) = 0) := by
  constructor
  · rw [countP_generatePlan_eq _ inputs w hw
      (fun r hr => by have := atDay_pin _ _ r hr; omega)]
    exact countP_weekRows_extra inputs (loopBound inputs) w
  · intro h
    rw [generatePlan, List.Perm.countP_eq _ (sortRows_perm _)]
    exact countP_flatten_range_zero _ _ _
      (fun i hi => countP_weekRows_extra_off inputs (loopBound inputs) i h)

/-- Witness for claim C5 at a concrete input. -/
theorem extra_row_rule_witness :
    List.countP (atDay (7 * 1 + 5) extraVO2Session) (generatePlan exMPlus) = 1 ∧
    List.countP (atDay (7 * 3 + 5) extraVO2Session) (generatePlan exMPlus) = 0 ∧
    List.countP (fun r => r.session == extraVO2Session) (generatePlan exMaint) = 0 := by
  refine ⟨?_, ?_, ?_⟩
  · have h := (extra_row_rule exMPlus 1 (by decide)).1
    rwa [if_pos (by decide)] at h
  · have h := (extra_row_rule exMPlus 3 (by decide)).1
    rwa [if_neg (by decide)] at h
  · exact (extra_row_rule exMaint 0 (by decide)).2 (by decide)

/-- Claim C6: the returned row sequence is sorted ascending by the
calendar date the date field of each row denotes: adjacent rows are
nondecreasing in date. -/
theorem rows_sorted_by_date (inputs : PlanInputs) (i : Nat)
    (h : i + 1 < (generatePlan inputs).length) :
    ((generatePlan inputs).get ⟨i, by omega⟩).date ≤
      ((generatePlan inputs).get ⟨i + 1, h⟩).date := by
  have hp : List.Pairwise (fun a b => a.date ≤ b.date) (generatePlan inputs) :=
    sortRows_pairwise (assembleRows inputs)
  exact List.pairwise_iff_get.mp hp ⟨i, by omega⟩ ⟨i + 1, h⟩ (Nat.lt_succ_self i)

/-- Witness for claim C6 at a concrete input. -/
theorem rows_sorted_by_date_witness :
    ((generatePlan exRace28).get ⟨0, by decide⟩).date ≤
      ((generatePlan exRace28).get ⟨1, by decide⟩).date :=
  rows_sorted_by_date exRace28 0 (by decide)

/-- Claim C7: every week `w` of the plan has exactly one Sunday row (date
`7*w + 6`), the long run, whose duration is `longSeed + 10*w` minutes with
seed 90 for a race plan and 60 otherwise; week 0 of a race plan reads
"Long run – 90 min easy" dated today plus 6 days; and the duration grows
strictly week over week with no taper or cap. -/
theorem long_run_rule (inputs : PlanInputs) (w : Nat) (hw : w < loopBound inputs) :
    List.countP (fun r => r.date == 7 * w + 6) (generatePlan inputs) = 1 ∧
    List.countP (atDay (7 * w + 6) (longRunSession inputs w)) (generatePlan inputs) = 1 ∧
    longRunSession inputs w =
      "Long run – " ++ toString (longSeed inputs.planType + 10 * w) ++ " min easy" ∧
    (inputs.planType = PlanType.race -> longSeed inputs.planType = 90) ∧
    (inputs.planType ≠ PlanType.race -> longSeed inputs.planType = 60) ∧
    longRunMin inputs w < longRunMin inputs (w + 1) ∧
    (inputs.planType = PlanType.race -> w = 0 ->
      List.countP (atDay (7 * w + 6) "Long run – 90 min easy") (generatePlan inputs) = 1) := by
  have h2 : List.countP (atDay (7 * w + 6) (longRunSession inputs w))
      (generatePlan inputs) = 1 := by
    rw [countP_generatePlan_eq _ inputs w hw
      (fun r hr => by have := atDay_pin _ _ r hr; omega)]
    exact countP_weekRows_long inputs (loopBound inputs) w
  refine ⟨?_, h2, ?_, ?_, ?_, ?_, ?_⟩
  · rw [countP_generatePlan_eq _ inputs w hw
      (fun r hr => by have := eq_of_beq hr; omega)]
    exact countP_weekRows_sunday inputs (loopBound inputs) w
  · simp [longRunSession, longRunMin]
  · intro h
    simp [longSeed, h]
  · intro h
    simp [longSeed, h]
  · simp [longRunMin]
  · intro hpt hw0
    subst hw0
    have hs : longRunSession inputs 0 = "Long run – 90 min easy" := by
      simp only [longRunSession, longRunMin, longSeed, hpt, if_pos]
      decide
    rwa [hs] at h2

/-- Witness for claim C7 at a concrete input. -/
theorem long_run_rule_witness :
    List.countP (atDay (7 * 0 + 6) "Long run – 90 min easy") (generatePlan exRace28) = 1 :=
  (long_run_rule exRace28 0 (by decide)).2.2.2.2.2.2 rfl rfl

/-- Claim C8: every week `w` of the plan has exactly one Wednesday row
(date `7*w + 2`); on a flat course it is the fixed threshold session in
every week, and on any other course profile it alternates by week parity:
hill tempo on even weeks and threshold on odd weeks. -/
theorem midweek_rule (inputs : PlanInputs) (w : Nat) (hw : w < loopBound inputs) :
    List.countP (fun r => r.date == 7 * w + 2) (generatePlan inputs) = 1 ∧
    (inputs.courseProfile = CourseProfile.flat ->
      List.countP (atDay (7 * w + 2) "Threshold 20 min continuous")
        (generatePlan inputs) = 1) ∧
    (inputs.courseProfile ≠ CourseProfile.flat -> w % 2 = 0 ->
      List.countP (atDay (7 * w + 2) "Uphill-Tempo 6×5 min")
        (generatePlan inputs) = 1) ∧
    (inputs.courseProfile ≠ CourseProfile.flat -> w % 2 = 1 ->
      List.countP (atDay (7 * w + 2) "Threshold 20 min continuous")
        (generatePlan inputs) = 1) := by
  have h2 : List.countP (atDay (7 * w + 2) (midweekSession inputs.courseProfile w))
      (generatePlan inputs) = 1 := by
    rw [countP_generatePlan_eq _ inputs w hw
      (fun r hr => by have := atDay_pin _ _ r hr; omega)]
    exact countP_weekRows_wed inputs (loopBound inputs) w
  refine ⟨?_, ?_, ?_, ?_⟩
  · rw [countP_generatePlan_eq _ inputs w hw
      (fun r hr => by have := eq_of_beq hr; omega)]
    exact countP_weekRows_wednesday inputs (loopBound inputs) w
  · intro h
    have hs : midweekSession inputs.courseProfile w = "Threshold 20 min continuous" := by
      simp [midweekSession, h]
    rwa [hs] at h2
  · intro h hpar
    have hs : midweekSession inputs.courseProfile w = "Uphill-Tempo 6×5 min" := by
      simp [midweekSession, h, hpar]
    rwa [hs] at h2
  · intro h hpar
    have hs : midweekSession inputs.courseProfile w = "Threshold 20 min continuous" := by
      simp [midweekSession, h, hpar]
    rwa [hs] at h2

/-- Witness for claim C8 at a concrete input. -/
theorem midweek_rule_witness :
    List.countP (atDay (7 * 0 + 2) "Threshold 20 min continuous")
      (generatePlan exRace28) = 1 ∧
    List.countP (atDay (7 * 0 + 2) "Uphill-Tempo 6×5 min")
      (generatePlan exMPlus) = 1 ∧
    List.countP (atDay (7 * 1 + 2) "Threshold 20 min continuous")
      (generatePlan exMPlus) = 1 :=
  ⟨(midweek_rule exRace28 0 (by decide)).2.1 rfl,
   (midweek_rule exMPlus 0 (by decide)).2.2.1 (by decide) rfl,
   (midweek_rule exMPlus 1 (by decide)).2.2.2 (by decide) rfl⟩

/-- Claim C9 (amended): for every input except a race plan whose raceDate
is present but unparseable, the computed week count is at least 4 and
every week of the plan contributes at least two rows. -/
theorem weeks_floor_amended (inputs : PlanInputs)
    (h : ¬(inputs.planType = PlanType.race ∧ inputs.raceDate = some RaceDate.invalid)) :
    (∃ t : Int, weeksCount inputs = some t ∧ 4 ≤ t) ∧
    4 ≤ loopBound inputs ∧
    (∀ w : Nat, w < loopBound inputs →
      2 ≤ List.countP (inWeek w) (generatePlan inputs)) := by
  have hWC : ∃ t : Int, weeksCount inputs = some t ∧ 4 ≤ t := by
    unfold weeksCount
    cases hpt : inputs.planType
    · cases hrd : inputs.raceDate with
      | none => exact ⟨max 4 (ceilDiv7 0), rfl, le_max_left 4 _⟩
      | some rd =>
        cases rd with
        | valid d => exact ⟨max 4 (ceilDiv7 d), rfl, le_max_left 4 _⟩
        | invalid => exact absurd ⟨hpt, hrd⟩ h
    · exact ⟨12, rfl, by norm_num⟩
    · exact ⟨12, rfl, by norm_num⟩
  obtain ⟨t, ht, ht4⟩ := hWC
  have hlb : 4 ≤ loopBound inputs := by
    simp only [loopBound, ht]
    omega
  refine ⟨⟨t, ht, ht4⟩, hlb, ?_⟩
  intro w hww
  rw [countP_generatePlan_eq _ inputs w hww (inWeek_pin w)]
  exact countP_weekRows_two inputs (loopBound inputs) w

/-- Witness for claim C9 at a concrete input. -/
theorem weeks_floor_amended_witness :
    4 ≤ loopBound exMaint ∧ 2 ≤ List.countP (inWeek 0) (generatePlan exMaint) := by
  have h := weeks_floor_amended exMaint (by decide)
  exact ⟨h.2.1, h.2.2 0 (lt_of_lt_of_le (by norm_num) h.2.1)⟩

/-- Claim C9 (counterexample): for a race plan whose raceDate is present
but unparseable, the computed week count is NaN rather than a number at
least 4 and the generated plan is empty, so no week contributes any row;
the claim as stated fails on this input. -/
theorem weeks_floor_counterexample :
    weeksCount exRaceBadDate = Option.none ∧ loopBound exRaceBadDate = 0 ∧
      generatePlan exRaceBadDate = [] ∧
      List.countP (inWeek 0) (generatePlan exRaceBadDate) = 0 :=
  ⟨rfl, rfl, rfl, rfl⟩

/-- Claim C10: with planType race and a present but unparseable raceDate,
the generator returns the empty row list and raises no error: the NaN week
count makes the week loop execute zero times, so the sorted empty
collection is returned to the caller. -/
theorem invalid_raceDate_empty_plan (inputs : PlanInputs)
    (h1 : inputs.planType = PlanType.race)
    (h2 : inputs.raceDate = some RaceDate.invalid) :
    weeksCount inputs = Option.none ∧ loopBound inputs = 0 ∧
      generatePlan inputs = [] := by
  have hwc : weeksCount inputs = Option.none := by simp [weeksCount, h1, h2]
  have hlb : loopBound inputs = 0 := by simp [loopBound, hwc]
  refine ⟨hwc, hlb, ?_⟩
  simp [generatePlan, assembleRows, hlb, sortRows]

/-- Witness for claim C10 at a concrete input. -/
theorem invalid_raceDate_empty_plan_witness :
    generatePlan exRaceBadDate = [] :=
  (invalid_raceDate_empty_plan exRaceBadDate rfl rfl).2.2

end TrailRunPlanner
